import Mathlib

/-!
Verification of the mechanize-mini HTML core: charset detection, the
tag-soup tree builder, the CSS-selector engine, and the form option helper.

The HtmlTree module itself ships only as tests and callers in this tree, so
its operations (detect_charset, parse entry points, selectors, inner_html)
are modelled from the specification; forms.py is embedded from its source.
-/

/-! ## Basic character helpers (ASCII-oriented, as in the prescan) -/

/-- Lowercase an ASCII letter, leave every other character unchanged. -/
def lowerChar (c : Char) : Char :=
  if 'A' ≤ c ∧ c ≤ 'Z' then Char.ofNat (c.toNat + 32) else c

/-- ASCII whitespace. -/
def isSpaceChar (c : Char) : Bool :=
  c = ' ' || c = Char.ofNat 9 || c = Char.ofNat 10 || c = Char.ofNat 13 || c = Char.ofNat 12

/-- Drop leading ASCII whitespace. -/
def dropSpaces : List Char → List Char
  | [] => []
  | c :: rest => if isSpaceChar c then dropSpaces rest else c :: rest

/-- Case-insensitive (ASCII) check that a list of characters begins with a pattern. -/
def startsWithCI : List Char → List Char → Bool
  | [], _ => true
  | _ :: _, [] => false
  | p :: ps, c :: cs => lowerChar p = lowerChar c && startsWithCI ps cs

/-- Exact check that a list of bytes begins with a pattern. -/
def bytesStartWith : List Nat → List Nat → Bool
  | [], _ => true
  | _ :: _, [] => false
  | p :: ps, b :: bs => p = b && bytesStartWith ps bs

/-- View raw bytes as characters for the ASCII-compatible in-content prescan. -/
def bytesToChars (buf : List Nat) : List Char :=
  buf.map (fun b => Char.ofNat (b % 256))

/-! ## Charset detector -/

/-- Lookup of a normalized (lowercased, trimmed) encoding label in the table
of known encodings. -/
def lookupNorm (n : String) : Option String :=
  if n = "utf-8" ∨ n = "utf8" ∨ n = "utf_8" ∨ n = "u8" then some "utf-8"
  else if n = "ascii" ∨ n = "us-ascii" ∨ n = "646" then some "ascii"
  else if n = "iso-8859-1" ∨ n = "iso8859-1" ∨ n = "latin-1" ∨ n = "latin1" ∨ n = "latin" ∨ n = "l1" then
    some "iso-8859-1"
  else if n = "iso-8859-15" ∨ n = "iso8859-15" ∨ n = "latin-9" ∨ n = "latin9" ∨ n = "l9" then
    some "iso-8859-15"
  else if n = "windows-1252" ∨ n = "cp1252" then some "windows-1252"
  else if n = "utf-16" ∨ n = "utf16" ∨ n = "u16" then some "utf-16"
  else if n = "utf-16le" ∨ n = "utf-16-le" ∨ n = "utf_16_le" then some "utf-16le"
  else if n = "utf-16be" ∨ n = "utf-16-be" ∨ n = "utf_16_be" then some "utf-16be"
  else none

/-- Modelled from the spec: the encoding-name resolver used by detect_charset
(the HtmlTree source is not in the tree; codecs lookup is modelled by a
finite table of the known encodings the spec and its oracles mention).
Returns the canonical name for a recognized encoding label, none otherwise. -/
def lookupEncoding (s : String) : Option String :=
  lookupNorm (String.mk ((dropSpaces (dropSpaces s.data.reverse).reverse).map lowerChar))

/-- Modelled from the spec: legacy encodings ASCII and ISO-8859-1/Latin-1 are
remapped to windows-1252 and never used verbatim. -/
def remapLegacy (e : String) : String :=
  if e = "ascii" ∨ e = "iso-8859-1" then "windows-1252" else e

/-- Modelled from the spec: a UTF-16 family encoding discovered by the
ASCII-oriented in-content scan is coerced to UTF-8. -/
def coerceUtf16 (e : String) : String :=
  if e = "utf-16" ∨ e = "utf-16le" ∨ e = "utf-16be" then "utf-8" else e

/-- Resolve a declared (transport-level) encoding label: known encodings are
used, subject to the legacy remap. -/
def resolveDeclared (s : String) : Option String :=
  (lookupEncoding s).map remapLegacy

/-- Resolve an encoding label found by the in-content scan: legacy remap plus
the UTF-16 to UTF-8 coercion. -/
def resolveContent (s : String) : Option String :=
  (lookupEncoding s).map (fun e => remapLegacy (coerceUtf16 e))

/-- Modelled from the spec: byte-order-mark detection at buffer start. -/
def bomEncoding (buf : List Nat) : Option String :=
  if bytesStartWith [0xEF, 0xBB, 0xBF] buf then some "utf-8"
  else if bytesStartWith [0xFF, 0xFE] buf then some "utf-16le"
  else if bytesStartWith [0xFE, 0xFF] buf then some "utf-16be"
  else none

/-- Take characters of a tag up to (excluding) the closing angle bracket. -/
def takeTagContent : List Char → List Char
  | [] => []
  | c :: rest => if c = '>' then [] else c :: takeTagContent rest

/-- Collect the contents of every meta tag occurrence, in document order. -/
def extractMetas : List Char → List (List Char)
  | [] => []
  | c :: rest =>
    if startsWithCI "<meta".data (c :: rest) then
      takeTagContent (rest.drop 4) :: extractMetas rest
    else extractMetas rest

/-- Read an attribute-style value after an equals sign: optional surrounding
whitespace, then either a quoted string or a bare token ending at whitespace,
a quote or a semicolon. -/
def readCharsetValue (s : List Char) : Option (List Char) :=
  match dropSpaces s with
  | '=' :: rest =>
    match dropSpaces rest with
    | [] => none
    | c :: rest2 =>
      if c = '"' ∨ c = Char.ofNat 39 then
        some (rest2.takeWhile (fun d => d ≠ c))
      else
        some ((c :: rest2).takeWhile
          (fun d => !(isSpaceChar d) && d ≠ '"' && d ≠ Char.ofNat 39 && d ≠ ';'))
  | _ => none

/-- Find the first charset attribute inside one meta tag (covers both the
charset attribute and the content="...;charset=..." form). -/
def findCharsetIn : List Char → Option (List Char)
  | [] => none
  | c :: rest =>
    if startsWithCI "charset".data (c :: rest) then
      readCharsetValue (rest.drop 6)
    else findCharsetIn rest

/-- All charset labels declared by meta tags, in document order (meta tags
without a charset declaration contribute nothing). -/
def metaCandidates (s : List Char) : List String :=
  (extractMetas s).filterMap (fun t => (findCharsetIn t).map String.mk)

/-- First candidate label that resolves to a known encoding; an unrecognized
or malformed label is skipped rather than aborting the scan. -/
def firstRecognized : List String → Option String
  | [] => none
  | c :: cs =>
    match resolveContent c with
    | some e => some e
    | none => firstRecognized cs

/-- Find an encoding attribute inside an XML declaration. -/
def findEncodingIn : List Char → Option (List Char)
  | [] => none
  | c :: rest =>
    if startsWithCI "encoding".data (c :: rest) then
      readCharsetValue (rest.drop 7)
    else findEncodingIn rest

/-- Modelled from the spec: the XML declaration scan at buffer start. -/
def xmlDeclCharset (s : List Char) : Option String :=
  if startsWithCI "<?xml".data s then
    (findEncodingIn (takeTagContent s)).bind (fun v => resolveContent (String.mk v))
  else none

/-- Modelled from the spec: detect_charset with its five-tier priority chain
(BOM, declared encoding, in-content meta scan, XML declaration, default
windows-1252). The HtmlTree source is not in the tree. -/
def detect_charset (buf : List Nat) (declared : Option String) : String :=
  match bomEncoding buf with
  | some e => e
  | none =>
    match declared.bind resolveDeclared with
    | some e => e
    | none =>
      match firstRecognized (metaCandidates (bytesToChars buf)) with
      | some e => e
      | none =>
        match xmlDeclCharset (bytesToChars buf) with
        | some e => e
        | none => "windows-1252"

/-- The canonical encoding names the resolver can produce. -/
def canonicalNames : List String :=
  ["utf-8", "ascii", "iso-8859-1", "iso-8859-15", "windows-1252",
   "utf-16", "utf-16le", "utf-16be"]

/-- The concrete, resolvable encoding names detect_charset can return. -/
def knownOutputs : List String :=
  ["utf-8", "utf-16le", "utf-16be", "utf-16", "windows-1252", "iso-8859-15"]

/-- Bytes of an ASCII string. -/
def strBytes (s : String) : List Nat :=
  s.data.map Char.toNat

theorem lookupNorm_mem (n e : String) (h : lookupNorm n = some e) :
    e ∈ canonicalNames := by
  unfold lookupNorm at h
  repeat' split at h
  all_goals simp_all [canonicalNames]

theorem lookupEncoding_mem (s e : String) (h : lookupEncoding s = some e) :
    e ∈ canonicalNames :=
  lookupNorm_mem _ e h

theorem remap_mem (e : String) (h : e ∈ canonicalNames) :
    remapLegacy e ∈ knownOutputs := by
  fin_cases h <;> decide

theorem remap_coerce_mem (e : String) (h : e ∈ canonicalNames) :
    remapLegacy (coerceUtf16 e) ∈ knownOutputs := by
  fin_cases h <;> decide

theorem resolveDeclared_mem (s e : String) (h : resolveDeclared s = some e) :
    e ∈ knownOutputs := by
  unfold resolveDeclared at h
  cases hl : lookupEncoding s with
  | none => simp [hl] at h
  | some c =>
    simp [hl] at h
    exact h ▸ remap_mem c (lookupEncoding_mem s c hl)

theorem resolveContent_mem (s e : String) (h : resolveContent s = some e) :
    e ∈ knownOutputs := by
  unfold resolveContent at h
  cases hl : lookupEncoding s with
  | none => simp [hl] at h
  | some c =>
    simp [hl] at h
    exact h ▸ remap_coerce_mem c (lookupEncoding_mem s c hl)

theorem firstRecognized_mem (l : List String) (e : String)
    (h : firstRecognized l = some e) : e ∈ knownOutputs := by
  induction l with
  | nil => simp [firstRecognized] at h
  | cons c cs ih =>
    unfold firstRecognized at h
    cases hr : resolveContent c with
    | none => rw [hr] at h; exact ih h
    | some d =>
      rw [hr] at h
      cases h
      exact resolveContent_mem c e hr

theorem bomEncoding_mem (buf : List Nat) (e : String)
    (h : bomEncoding buf = some e) : e ∈ knownOutputs := by
  unfold bomEncoding at h
  repeat' split at h
  all_goals simp_all [knownOutputs]

theorem xmlDeclCharset_mem (s : List Char) (e : String)
    (h : xmlDeclCharset s = some e) : e ∈ knownOutputs := by
  unfold xmlDeclCharset at h
  split at h
  · cases hf : findEncodingIn (takeTagContent s) with
    | none => simp [hf] at h
    | some v => simp [hf] at h; exact resolveContent_mem _ _ h
  · simp at h

/-- C1: detect_charset is a total function whose result is always one of the
concrete, resolvable encoding names, and absent any signal the result is
windows-1252 — both on the empty input and on UTF-8-encoded accented text
(the bytes 98, 108, 195, 164 encode b, l, a-umlaut in UTF-8). -/
theorem C1_detect_charset_total_default :
    (∀ (buf : List Nat) (declared : Option String),
      detect_charset buf declared ∈ knownOutputs)
    ∧ detect_charset [] none = "windows-1252"
    ∧ detect_charset [98, 108, 195, 164] none = "windows-1252" := by
  refine ⟨?_, by decide, by decide⟩
  intro buf declared
  cases hb : bomEncoding buf with
  | some e =>
    simpa only [detect_charset, hb] using bomEncoding_mem buf e hb
  | none =>
    cases hd : declared.bind resolveDeclared with
    | some e =>
      rcases Option.bind_eq_some.mp hd with ⟨d, _, hr⟩
      simpa only [detect_charset, hb, hd] using resolveDeclared_mem d e hr
    | none =>
      cases hm : firstRecognized (metaCandidates (bytesToChars buf)) with
      | some e =>
        simpa only [detect_charset, hb, hd, hm] using firstRecognized_mem _ e hm
      | none =>
        cases hx : xmlDeclCharset (bytesToChars buf) with
        | some e =>
          simpa only [detect_charset, hb, hd, hm, hx] using xmlDeclCharset_mem _ e hx
        | none =>
          simp only [detect_charset, hb, hd, hm, hx]
          decide

/-- C2: a byte-order mark at buffer start decides the encoding
unconditionally, overriding the declared encoding and any in-content
declaration; in particular a UTF-8 BOM followed by an ASCII meta declaration
still yields utf-8. -/
theorem C2_bom_always_wins :
    (∀ (rest : List Nat) (declared : Option String),
      detect_charset (0xEF :: 0xBB :: 0xBF :: rest) declared = "utf-8")
    ∧ (∀ (rest : List Nat) (declared : Option String),
      detect_charset (0xFF :: 0xFE :: rest) declared = "utf-16le")
    ∧ (∀ (rest : List Nat) (declared : Option String),
      detect_charset (0xFE :: 0xFF :: rest) declared = "utf-16be")
    ∧ detect_charset (0xEF :: 0xBB :: 0xBF :: strBytes "<meta charset=\"ascii\">") none
        = "utf-8" := by
  refine ⟨?_, ?_, ?_, by decide⟩ <;>
    intro rest declared <;>
    simp [detect_charset, bomEncoding, bytesStartWith]

/-- C3: without a BOM, a declared encoding that resolves to a known encoding
is used modulo the legacy remap; ASCII and Latin-1 are remapped to
windows-1252 (also when discovered by the in-content scan) while utf-8 is
used verbatim. -/
theorem C3_declared_encoding_remap :
    (∀ (buf : List Nat) (name e : String),
      bomEncoding buf = none → lookupEncoding name = some e →
      detect_charset buf (some name) = remapLegacy e)
    ∧ detect_charset [] (some "ASCII") = "windows-1252"
    ∧ detect_charset [] (some "latin-1") = "windows-1252"
    ∧ detect_charset [] (some "utf-8") = "utf-8"
    ∧ detect_charset (strBytes "<meta charset=ascii>") none = "windows-1252" := by
  refine ⟨?_, by decide, by decide, by decide, by decide⟩
  intro buf name e hb hl
  have hd : (some name).bind resolveDeclared = some (remapLegacy e) := by
    simp [resolveDeclared, hl]
  simp only [detect_charset, hb, hd]

/-- C3 witness: the general declared-encoding clause applied at a concrete
input (empty buffer, declared label UTF-8 in uppercase). -/
theorem C3_declared_encoding_remap_witness :
    detect_charset [] (some "UTF-8") = remapLegacy "utf-8" :=
  C3_declared_encoding_remap.1 [] "UTF-8" "utf-8" (by decide) (by decide)

/-- C4: in the in-content scan only the first recognized charset declaration
counts: an unrecognized label is skipped in favour of a later valid one, a
recognized label makes later ones irrelevant, and a recognized meta result is
used in preference to the XML declaration even when the XML declaration
appears earlier in the byte stream. -/
theorem C4_first_recognized_meta :
    (∀ (c : String) (cs : List String), resolveContent c = none →
      firstRecognized (c :: cs) = firstRecognized cs)
    ∧ (∀ (c : String) (cs : List String) (e : String), resolveContent c = some e →
      firstRecognized (c :: cs) = some e)
    ∧ (∀ (buf : List Nat) (declared : Option String) (e : String),
      bomEncoding buf = none → declared.bind resolveDeclared = none →
      firstRecognized (metaCandidates (bytesToChars buf)) = some e →
      detect_charset buf declared = e)
    ∧ detect_charset (strBytes "<meta charset=gucklug>blabla<meta charset=\"utf-8\">") none
        = "utf-8"
    ∧ detect_charset (strBytes "<meta charset=ascii>blabla<meta charset=\"utf-8\">") none
        = "windows-1252"
    ∧ detect_charset
        (strBytes "<?xml version=\"1.0\" encoding=\"UTF-8\" ?><meta charset=iso-8859-15>") none
        = "iso-8859-15" := by
  refine ⟨?_, ?_, ?_, by decide, by decide, by decide⟩
  · intro c cs h
    simp only [firstRecognized, h]
  · intro c cs e h
    simp only [firstRecognized, h]
  · intro buf declared e hb hd hm
    simp only [detect_charset, hb, hd, hm]

/-- C4 witness: the scan clauses and the meta-over-XML precedence clause
applied at concrete inputs. -/
theorem C4_first_recognized_meta_witness :
    firstRecognized ("gucklug" :: ["utf-8"]) = firstRecognized ["utf-8"]
    ∧ firstRecognized ("ascii" :: ["utf-8"]) = some "windows-1252"
    ∧ detect_charset (strBytes "<meta charset=utf8>") none = "utf-8" :=
  ⟨C4_first_recognized_meta.1 "gucklug" ["utf-8"] (by decide),
   C4_first_recognized_meta.2.1 "ascii" ["utf-8"] "windows-1252" (by decide),
   C4_first_recognized_meta.2.2.1 (strBytes "<meta charset=utf8>") none "utf-8"
     (by decide) (by decide) (by decide)⟩

/-! ## Tree node model -/

/-- The element tree node: tag (case-sensitive, as written), attribute list
(names unique, last source occurrence wins), character data before the first
child, ordered children, and the tail character data that follows this node
before its next sibling. -/
inductive Element : Type where
  | mk (tag : String) (attrs : List (String × String)) (text : String)
       (children : List Element) (tail : String)

def Element.tag : Element → String
  | .mk t _ _ _ _ => t

def Element.attrs : Element → List (String × String)
  | .mk _ a _ _ _ => a

def Element.text : Element → String
  | .mk _ _ tx _ _ => tx

def Element.children : Element → List Element
  | .mk _ _ _ ch _ => ch

def Element.tail : Element → String
  | .mk _ _ _ _ tl => tl

/-- Attribute read: value of the first binding with the given name. -/
def getAttr (el : Element) (k : String) : Option String :=
  (el.attrs.find? (fun p => p.1 = k)).map Prod.snd

/-- Set one attribute in an attribute list, overwriting an existing binding. -/
def setAttrList (attrs : List (String × String)) (k v : String) : List (String × String) :=
  if attrs.any (fun p => p.1 = k) then
    attrs.map (fun p => if p.1 = k then (k, v) else p)
  else attrs ++ [(k, v)]

/-- Attribute write on an element. -/
def setAttr (el : Element) (k v : String) : Element :=
  match el with
  | .mk t a tx ch tl => .mk t (setAttrList a k v) tx ch tl

/-- Attribute delete on an element. -/
def delAttr (el : Element) (k : String) : Element :=
  match el with
  | .mk t a tx ch tl => .mk t (a.filter (fun p => p.1 ≠ k)) tx ch tl

/-- Record a raw attribute list with duplicate names collapsed, last wins. -/
def dedupAttrs (attrs : List (String × String)) : List (String × String) :=
  attrs.foldl (fun acc p => setAttrList acc p.1 p.2) []

/-- Merge new attributes over a base list, later names overwriting. -/
def mergeAttrs (base new : List (String × String)) : List (String × String) :=
  new.foldl (fun acc p => setAttrList acc p.1 p.2) base

/-! ## Tokenizer -/

def isAsciiLetter (c : Char) : Bool :=
  ('a' ≤ c && c ≤ 'z') || ('A' ≤ c && c ≤ 'Z')

def isNameChar (c : Char) : Bool :=
  isAsciiLetter c || ('0' ≤ c && c ≤ '9') || c = '-' || c = '_'

/-- A token of the HTML stream: a start tag with its attributes and
self-closing flag, an end tag, or one character of text. -/
inductive Tok : Type where
  | startTag (name : String) (attrs : List (String × String)) (selfClosing : Bool)
  | endTag (name : String)
  | chr (c : Char)
deriving DecidableEq

/-- Read an attribute value: quoted (single or double) or a bare token. -/
def readAttrValue (s : List Char) : List Char × List Char :=
  match s with
  | [] => ([], [])
  | c :: rest =>
    if c = '"' ∨ c = Char.ofNat 39 then
      (rest.takeWhile (fun d => d ≠ c), (rest.dropWhile (fun d => d ≠ c)).drop 1)
    else
      ((c :: rest).takeWhile (fun d => !(isSpaceChar d) && d ≠ '>' && d ≠ '/'),
       (c :: rest).dropWhile (fun d => !(isSpaceChar d) && d ≠ '>' && d ≠ '/'))

/-- Parse the attribute region of a start tag up to the closing angle
bracket; returns the attributes as written, the self-closing flag, and the
remaining input. A bare attribute token is recorded with its value equal to
its own name. -/
def parseAttrs : Nat → List Char → List (String × String) × Bool × List Char
  | 0, s => ([], false, s)
  | fuel + 1, s =>
    match dropSpaces s with
    | [] => ([], false, [])
    | '>' :: rest => ([], false, rest)
    | '/' :: rest =>
      match dropSpaces rest with
      | '>' :: rest2 => ([], true, rest2)
      | rest2 => parseAttrs fuel rest2
    | c :: rest =>
      if isNameChar c then
        let name := (c :: rest).takeWhile isNameChar
        let after := (c :: rest).dropWhile isNameChar
        match dropSpaces after with
        | '=' :: rest2 =>
          let vr := readAttrValue (dropSpaces rest2)
          let acc := parseAttrs fuel vr.2
          ((String.mk name, String.mk vr.1) :: acc.1, acc.2.1, acc.2.2)
        | rest2 =>
          let acc := parseAttrs fuel rest2
          ((String.mk name, String.mk name) :: acc.1, acc.2.1, acc.2.2)
      else parseAttrs fuel rest

/-- Modelled from the spec: the single left-to-right tokenizer (HtmlTree
source not in the tree). Comments, doctype and script-data modes are not
modelled; every tag name is accepted verbatim. -/
def tokenize : Nat → List Char → List Tok
  | 0, _ => []
  | _ + 1, [] => []
  | fuel + 1, '<' :: '/' :: rest =>
    let name := rest.takeWhile isNameChar
    let rest2 := rest.dropWhile isNameChar
    let rest3 := (rest2.dropWhile (fun c => c ≠ '>')).drop 1
    Tok.endTag (String.mk name) :: tokenize fuel rest3
  | fuel + 1, '<' :: c :: rest =>
    if isAsciiLetter c then
      let name := (c :: rest).takeWhile isNameChar
      let after := (c :: rest).dropWhile isNameChar
      let acc := parseAttrs (after.length + 1) after
      Tok.startTag (String.mk name) acc.1 acc.2.1 :: tokenize fuel acc.2.2
    else
      Tok.chr '<' :: tokenize fuel (c :: rest)
  | fuel + 1, c :: rest => Tok.chr c :: tokenize fuel rest

/-! ## Tree builder -/

/-- An open element on the stack of currently-open elements: tag, attributes,
text before the first child, and the children built so far (stored in
reverse). -/
structure Frame : Type where
  tag : String
  attrs : List (String × String)
  text : String
  children : List Element

/-- Append character data after a node, before its next sibling. -/
def appendTail (el : Element) (s : String) : Element :=
  match el with
  | .mk t a tx ch tl => .mk t a tx ch (tl ++ s)

/-- Add character data at the current insertion point of a frame: into its
text when it has no children yet, else onto the tail of its last child. -/
def frameAddText (f : Frame) (s : String) : Frame :=
  match f.children with
  | [] => ⟨f.tag, f.attrs, f.text ++ s, []⟩
  | c :: cs => ⟨f.tag, f.attrs, f.text, appendTail c s :: cs⟩

/-- Add a finished child element to a frame. -/
def frameAddChild (f : Frame) (el : Element) : Frame :=
  ⟨f.tag, f.attrs, f.text, el :: f.children⟩

/-- Turn a finished frame into an element (children back in document order,
tail initially empty). -/
def closeFrame (f : Frame) : Element :=
  .mk f.tag f.attrs f.text f.children.reverse ""

/-- Close the innermost open element into its parent. The outermost (root)
frame is never popped. -/
def popFrame : List Frame → List Frame
  | f :: g :: rest => frameAddChild g (closeFrame f) :: rest
  | s => s

/-- Pop open elements while the innermost tag satisfies the predicate,
never popping the root frame. -/
def popWhileTop (p : String → Bool) : Nat → List Frame → List Frame
  | 0, s => s
  | fuel + 1, f :: g :: rest =>
    if p f.tag then popWhileTop p fuel (popFrame (f :: g :: rest))
    else f :: g :: rest
  | _ + 1, s => s

/-- Pop one open element if the innermost tag satisfies the predicate. -/
def popIfTop (p : String → Bool) : List Frame → List Frame
  | f :: g :: rest => if p f.tag then popFrame (f :: g :: rest) else f :: g :: rest
  | s => s

/-- Modelled from the spec: the fixed auto-close table consulted before
opening a new element — a new li closes an open li chain up to the nearest
non-li boundary; option and optgroup close an open option; optgroup also
closes an open optgroup; tr closes an open tr and any open td or th; td and
th close a previously open td or th; colgroup closes a previously open
colgroup; a new p closes an open p sibling. The structural-boundary closing
of p by non-phrasing containers and table foster parenting are not modelled
(no claim exercises them). -/
def autoClose (newTag : String) (stack : List Frame) : List Frame :=
  if newTag = "li" then popWhileTop (fun t => t = "li") stack.length stack
  else if newTag = "option" then popWhileTop (fun t => t = "option") stack.length stack
  else if newTag = "optgroup" then
    popIfTop (fun t => t = "optgroup")
      (popWhileTop (fun t => t = "option") stack.length stack)
  else if newTag = "tr" then
    popIfTop (fun t => t = "tr")
      (popWhileTop (fun t => t = "td" || t = "th") stack.length stack)
  else if newTag = "td" ∨ newTag = "th" then
    popWhileTop (fun t => t = "td" || t = "th") stack.length stack
  else if newTag = "colgroup" then popIfTop (fun t => t = "colgroup") stack
  else if newTag = "p" then popIfTop (fun t => t = "p") stack
  else stack

/-- Void elements are opened and immediately closed, no children permitted. -/
def voidTag (t : String) : Bool :=
  t = "hr" || t = "col"

/-- Formatting elements are reopened as fresh clones after a misnested
ancestor close. -/
def formattingTag (t : String) : Bool :=
  t = "b" || t = "i" || t = "u" || t = "em" || t = "strong" || t = "s" ||
  t = "small" || t = "big" || t = "tt" || t = "code"

/-- Merge the attributes of a repeated root start tag onto the root frame
(the bottom of the stack). -/
def mergeRootAttrs (attrs : List (String × String)) : List Frame → List Frame
  | [] => []
  | [f] => [⟨f.tag, mergeAttrs f.attrs attrs, f.text, f.children⟩]
  | f :: rest => f :: mergeRootAttrs attrs rest

/-- Process a start tag: a repeated html start tag merges onto the root;
otherwise the auto-close table runs first, then a void or self-closing
element is appended closed, and any other element is pushed open. -/
def doStartTag (name : String) (attrs : List (String × String)) (sc : Bool)
    (stack : List Frame) : List Frame :=
  if name = "html" then mergeRootAttrs attrs stack
  else
    match autoClose name stack with
    | [] => []
    | f :: rest =>
      if sc || voidTag name then
        frameAddChild f (Element.mk name (dedupAttrs attrs) "" [] "") :: rest
      else
        Frame.mk name (dedupAttrs attrs) "" [] :: f :: rest

/-- Does any open element other than the root match the end tag name. -/
def stackHasTag (name : String) : List Frame → Bool
  | [] => false
  | [_] => false
  | f :: rest => f.tag = name || stackHasTag name rest

/-- Reopen collected formatting elements (innermost collected last) as new,
separate, initially empty clones. -/
def reopenFmts (fmts : List (String × List (String × String)))
    (stack : List Frame) : List Frame :=
  fmts.foldl (fun s p => Frame.mk p.1 p.2 "" [] :: s) stack

/-- Close open elements from the top of the stack down to and including the
frame matching the end tag, collecting the formatting elements that were open
above it; then reopen those as fresh clones. -/
def doEndTagAux (name : String) : Nat → List Frame →
    List (String × List (String × String)) → List Frame
  | 0, s, _ => s
  | fuel + 1, f :: g :: rest, fmts =>
    if f.tag = name then
      reopenFmts fmts (popFrame (f :: g :: rest))
    else
      doEndTagAux name fuel (popFrame (f :: g :: rest))
        (if formattingTag f.tag then (f.tag, f.attrs) :: fmts else fmts)
  | _ + 1, s, _ => s

/-- Process an end tag: matching an open element closes down to it and
reconstructs formatting context; matching nothing open is discarded with no
effect. -/
def doEndTag (name : String) (stack : List Frame) : List Frame :=
  if stackHasTag name stack then doEndTagAux name stack.length stack []
  else stack

/-- One tokenizer event applied to the open-element stack. -/
def stepTok (stack : List Frame) : Tok → List Frame
  | .chr c =>
    match stack with
    | [] => []
    | f :: rest => frameAddText f (String.mk [c]) :: rest
  | .startTag n a sc => doStartTag n a sc stack
  | .endTag n => doEndTag n stack

/-- End of input: every element still open is force-closed in stack order. -/
def finishStack : Nat → List Frame → Element
  | _, [] => Element.mk "html" [] "" [] ""
  | _, [f] => closeFrame f
  | 0, f :: _ => closeFrame f
  | fuel + 1, f :: g :: rest => finishStack fuel (popFrame (f :: g :: rest))

/-- Run the tree builder over decoded text with an html root frame. -/
def buildTree (cs : List Char) : Element :=
  let toks := tokenize (cs.length + 1) cs
  finishStack (toks.length + 1) (toks.foldl stepTok [Frame.mk "html" [] "" []])

/-- Modelled from the spec: parse_document — full-document parse with root
tag html (HtmlTree source not in the tree). -/
def parse_document (s : String) : Element :=
  buildTree s.data

/-- Strip a single leading BOM character from fragment input. -/
def stripBom : List Char → List Char
  | [] => []
  | c :: rest => if c = Char.ofNat 0xFEFF then rest else c :: rest

/-- The synthetic html wrapper produced by a fragment parse, before
unwrapping. -/
def fragmentWrapper (s : String) : Element :=
  buildTree (stripBom s.data)

/-- Modelled from the spec: parse_fragment — returns the single element when
the fragment content is exactly one element with no surrounding text, else
the synthetic html wrapper. -/
def parse_fragment (s : String) : Element :=
  match fragmentWrapper s with
  | .mk t a tx [c] tl =>
    if tx = "" ∧ c.tail = "" then c else .mk t a tx [c] tl
  | root => root

/-! ## Tree builder claims -/

/-- C5: parsing a ul with two unclosed li items yields a ul with exactly two
li children that are siblings, properly closed, neither nested in the other;
and the implicit li close stops at the nearest non-li boundary, so an li of
an inner list does not close the li of the outer list. -/
theorem C5_li_autoclose :
    parse_fragment "<ul><li>a<li>b</ul>" =
      Element.mk "ul" [] ""
        [Element.mk "li" [] "a" [] "", Element.mk "li" [] "b" [] ""] ""
    ∧ parse_fragment "<div><ul><li>a<ol><li>b<li>c</ol></ul></div>" =
      Element.mk "div" [] ""
        [Element.mk "ul" [] ""
          [Element.mk "li" [] "a"
            [Element.mk "ol" [] ""
              [Element.mk "li" [] "b" [] "", Element.mk "li" [] "c" [] ""] ""] ""] ""] "" :=
  ⟨rfl, rfl⟩

/-- C6: an end tag matching an ancestor below the top of the stack closes
everything down to that ancestor and reopens the formatting elements that
were open above it as new, initially empty clones (with the same tag and
attributes), while the closed original keeps its children: the misnested
b/i document yields a b containing text a and a nested i containing text b,
followed by a separate sibling i containing text c. -/
theorem C6_misnesting_reopens_clone :
    parse_document "<b>a<i>b</b>c</i>" =
      Element.mk "html" [] ""
        [Element.mk "b" [] "a" [Element.mk "i" [] "b" [] ""] "",
         Element.mk "i" [] "c" [] ""] ""
    ∧ parse_document "<b x=1>a<i y=2>b</b>c</i>" =
      Element.mk "html" [] ""
        [Element.mk "b" [("x", "1")] "a"
          [Element.mk "i" [("y", "2")] "b" [] ""] "",
         Element.mk "i" [("y", "2")] "c" [] ""] "" :=
  ⟨rfl, rfl⟩

/-- Modelled from the spec: assigning inner_html re-parses the assigned
string as a fragment and replaces the element text and children in place
with those of the fragment wrapper, leaving tag, attributes and tail alone
(HtmlTree source not in the tree). -/
def set_inner_html (el : Element) (s : String) : Element :=
  match el with
  | .mk t a _ _ tl => .mk t a (fragmentWrapper s).text (fragmentWrapper s).children tl

/-- C9: setting inner_html replaces exactly the text and children of the
element with the re-parsed fragment content; the tag, the attributes and the
tail are unchanged — shown in general and on the documentation example,
where the p keeps its tag while its content becomes the new text and the
new single i child. -/
theorem C9_inner_html_frame :
    (∀ (el : Element) (s : String),
      (set_inner_html el s).tag = el.tag
      ∧ (set_inner_html el s).attrs = el.attrs
      ∧ (set_inner_html el s).tail = el.tail
      ∧ (set_inner_html el s).text = (fragmentWrapper s).text
      ∧ (set_inner_html el s).children = (fragmentWrapper s).children)
    ∧ set_inner_html
        (Element.mk "p" [] "Hello " [Element.mk "b" [] "World" [] ""] "")
        "Goodbye <i>World</i>"
      = Element.mk "p" [] "Goodbye " [Element.mk "i" [] "World" [] ""] "" := by
  refine ⟨?_, rfl⟩
  intro el s
  cases el with
  | mk t a tx ch tl => exact ⟨rfl, rfl, rfl, rfl, rfl⟩

/-! ## Traversal and text content -/

mutual
/-- Depth-first pre-order traversal of an element: its descendants, self
excluded, in document order. -/
def descEl : Element → List Element
  | .mk _ _ _ ch _ => descList ch

def descList : List Element → List Element
  | [] => []
  | c :: cs => c :: (descEl c ++ descList cs)
end

mutual
/-- Pre-order traversal annotating every descendant with its strict-ancestor
path inside the traversal root (innermost first, the root itself excluded). -/
def dwpEl (path : List Element) : Element → List (Element × List Element)
  | .mk _ _ _ ch _ => dwpList path ch

def dwpList : List Element → List Element → List (Element × List Element)
  | _, [] => []
  | path, c :: cs => (c, path) :: (dwpEl (c :: path) c ++ dwpList path cs)
end

mutual
theorem dwpEl_fst (path : List Element) (el : Element) :
    (dwpEl path el).map Prod.fst = descEl el := by
  cases el with
  | mk t a tx ch tl =>
    simp only [dwpEl, descEl]
    exact dwpList_fst path ch

theorem dwpList_fst (path : List Element) (l : List Element) :
    (dwpList path l).map Prod.fst = descList l := by
  cases l with
  | nil => simp [dwpList, descList]
  | cons c cs =>
    simp only [dwpList, descList, List.map_cons, List.map_append]
    rw [dwpEl_fst (c :: path) c, dwpList_fst path cs]
end

mutual
/-- Aggregated text content: concatenation of all descendant text and tail
strings in document order. -/
def textContent : Element → String
  | .mk _ _ tx ch _ => tx ++ textTail ch

def textTail : List Element → String
  | [] => ""
  | c :: cs => textContent c ++ c.tail ++ textTail cs
end

/-! ## Selector engine -/

/-- One combinator-free simple selector: class token, id token, or the
contains pseudo-class. -/
inductive SimpleSel : Type where
  | cls (name : String)
  | idSel (name : String)
  | containsSel (needle : String)
deriving DecidableEq

/-- A compound selector: optional type selector (none covers both the
universal selector and an absent type) plus simple selectors. -/
structure Compound : Type where
  typ : Option String
  sims : List SimpleSel
deriving DecidableEq

/-- A combinator between two compounds. -/
inductive Comb : Type where
  | descendant
  | child
deriving DecidableEq

/-- A compiled selector, stored innermost-last-first: the compound the
matched element itself must satisfy, then pairs of the combinator and the
compound constraining successively outer context. The empty selector
compiles to none and matches nothing. -/
def CompiledSelector : Type := Option (Compound × List (Comb × Compound))

/-- Whitespace-split tokens of an attribute value. -/
def splitWsAux : List Char → List Char → List String
  | [], acc => if acc.isEmpty then [] else [String.mk acc.reverse]
  | c :: rest, acc =>
    if isSpaceChar c then
      if acc.isEmpty then splitWsAux rest []
      else String.mk acc.reverse :: splitWsAux rest []
    else splitWsAux rest (c :: acc)

def splitWs (s : String) : List String :=
  splitWsAux s.data []

/-- Case-sensitive substring check over character lists. -/
def listHasInfix (needle hay : List Char) : Bool :=
  hay.tails.any (fun t => needle.isPrefixOf t)

/-- Does an element satisfy one simple selector. -/
def simpleMatches (el : Element) : SimpleSel → Bool
  | .cls n => (splitWs ((getAttr el "class").getD "")).contains n
  | .idSel n => getAttr el "id" = some n
  | .containsSel s => listHasInfix s.data (textContent el).data

/-- Does an element satisfy a compound selector. -/
def compoundMatches (c : Compound) (el : Element) : Bool :=
  (match c.typ with
   | none => true
   | some t => el.tag = t) &&
  c.sims.all (fun s => simpleMatches el s)

/-- Does an element, with the given strict-ancestor path, match the chain:
the element matches the first compound, and the rest of the chain is matched
by an ancestor — the immediate parent for the child combinator, any strict
ancestor for the descendant combinator. -/
def matchesFrom (el : Element) (path : List Element) :
    Compound → List (Comb × Compound) → Bool
  | c, [] => compoundMatches c el
  | c, (k, c2) :: rest =>
    compoundMatches c el &&
    (match k with
     | .child =>
       match path with
       | [] => false
       | p :: path2 => matchesFrom p path2 c2 rest
     | .descendant =>
       path.tails.any (fun t =>
         match t with
         | [] => false
         | p :: path2 => matchesFrom p path2 c2 rest))

/-- Evaluate a compiled selector under a context element: the order-preserving
sequence of descendants (self excluded, pre-order) satisfying the chain. -/
def query_selector_all (sel : CompiledSelector) (ctx : Element) : List Element :=
  match sel with
  | none => []
  | some (c, rest) =>
    ((dwpEl [] ctx).filter (fun p => matchesFrom p.1 p.2 c rest)).map Prod.fst

/-- First element of the query sequence, or the absent value. -/
def query_selector (sel : CompiledSelector) (ctx : Element) : Option Element :=
  (query_selector_all sel ctx).head?

/-- Strip one pair of matching surrounding quotes from a contains argument. -/
def stripQuotes (s : List Char) : List Char :=
  match s with
  | c :: rest =>
    if (c = '"' ∨ c = Char.ofNat 39) ∧ rest ≠ [] ∧ rest.getLast? = some c then
      rest.dropLast
    else c :: rest
  | [] => []

/-- Parse the simple-selector suffix of one compound: class selectors, id
selectors and the contains pseudo-class; any other pseudo-class or stray
syntax is a compile-time error. -/
def parseSimples : Nat → List Char → Except String (List SimpleSel × List Char)
  | 0, s => Except.ok ([], s)
  | fuel + 1, s =>
    match s with
    | '.' :: rest =>
      let name := rest.takeWhile isNameChar
      if name.isEmpty then Except.error "expected a class name after the dot"
      else do
        let pr ← parseSimples fuel (rest.dropWhile isNameChar)
        Except.ok (SimpleSel.cls (String.mk name) :: pr.1, pr.2)
    | '#' :: rest =>
      let name := rest.takeWhile isNameChar
      if name.isEmpty then Except.error "expected an id after the hash"
      else do
        let pr ← parseSimples fuel (rest.dropWhile isNameChar)
        Except.ok (SimpleSel.idSel (String.mk name) :: pr.1, pr.2)
    | ':' :: rest =>
      if startsWithCI "contains(".data rest then
        let inner := rest.drop 9
        if inner.any (fun c => c = ')') then do
          let arg := inner.takeWhile (fun c => c ≠ ')')
          let pr ← parseSimples fuel ((inner.dropWhile (fun c => c ≠ ')')).drop 1)
          Except.ok (SimpleSel.containsSel (String.mk (stripQuotes arg)) :: pr.1, pr.2)
        else Except.error "missing closing parenthesis in contains"
      else Except.error "unsupported pseudo-class"
    | s2 => Except.ok ([], s2)

/-- Parse one compound selector: an optional type selector or universal
selector followed by simple selectors; an empty or malformed compound is a
compile-time error. -/
def parseCompound (s : List Char) : Except String (Compound × List Char) :=
  match s with
  | '*' :: rest => do
    let pr ← parseSimples (rest.length + 1) rest
    Except.ok (⟨none, pr.1⟩, pr.2)
  | c :: rest =>
    if isAsciiLetter c then do
      let pr ← parseSimples (rest.length + 1) ((c :: rest).dropWhile isNameChar)
      Except.ok (⟨some (String.mk ((c :: rest).takeWhile isNameChar)), pr.1⟩, pr.2)
    else if c = '.' ∨ c = '#' ∨ c = ':' then do
      let pr ← parseSimples (s.length + 1) s
      if pr.1.isEmpty then Except.error "empty compound selector"
      else Except.ok (⟨none, pr.1⟩, pr.2)
    else Except.error "unexpected character in selector"
  | [] => Except.error "empty compound selector"

/-- Parse the rest of a selector after a compound: nothing, a child
combinator, or whitespace acting as the descendant combinator; anything else
is a compile-time error. -/
def parseSelTail : Nat → List Char → Except String (List (Comb × Compound))
  | 0, _ => Except.error "selector too long"
  | fuel + 1, s =>
    match dropSpaces s with
    | [] => Except.ok []
    | '>' :: rest => do
      let pr ← parseCompound (dropSpaces rest)
      let tail ← parseSelTail fuel pr.2
      Except.ok ((Comb.child, pr.1) :: tail)
    | t =>
      if s = t then Except.error "unexpected character after compound"
      else do
        let pr ← parseCompound t
        let tail ← parseSelTail fuel pr.2
        Except.ok ((Comb.descendant, pr.1) :: tail)

/-- Reverse a forward combinator chain into evaluation order: the last
compound first, then each combinator paired with the compound to its left. -/
def revChain (c : Compound) : List (Comb × Compound) → Compound × List (Comb × Compound)
  | [] => (c, [])
  | (k, c2) :: rest =>
    let pr := revChain c2 rest
    (pr.1, pr.2 ++ [(k, c)])

/-- Modelled from the spec: selector compilation — full grammar
Compound ((WS | WS? GT WS?) Compound)*, failing with InvalidSelectorError
(modelled as the error side of Except) on any unsupported syntax, at compile
time; the empty selector string compiles to the selector that matches
nothing (HtmlTree source not in the tree). -/
def compileSel (s : String) : Except String CompiledSelector :=
  match dropSpaces s.data with
  | [] => Except.ok none
  | t => do
    let pr ← parseCompound t
    let tail ← parseSelTail (pr.2.length + 1) pr.2
    Except.ok (some (revChain pr.1 tail))

/-- C7: selector compilation fails exactly at compile time on syntax outside
the supported grammar — an unsupported pseudo-class, a sibling combinator,
an attribute selector — while a supported chain compiles; the empty selector
string is not an error: it compiles to the selector matching nothing, so the
query returns the absent value on every context element (matching itself is
a total function and can never raise). -/
theorem C7_invalid_selector_compile_time :
    (∃ msg, compileSel "a:hover" = Except.error msg)
    ∧ (∃ msg, compileSel "a + b" = Except.error msg)
    ∧ (∃ msg, compileSel "a[href]" = Except.error msg)
    ∧ (∃ r, compileSel "div > span.a:contains(x)" = Except.ok r)
    ∧ compileSel "" = Except.ok none
    ∧ (∀ ctx : Element, query_selector none ctx = none) :=
  ⟨⟨_, rfl⟩, ⟨_, rfl⟩, ⟨_, rfl⟩, ⟨_, rfl⟩, rfl, fun _ => rfl⟩

/-- C8: for every compiled selector and context element, the query result is
a sublist — a subset in the same relative order — of the depth-first
pre-order traversal of the context element descendants (self excluded), and
query_selector is the first element of that sequence, or the absent value
when it is empty. -/
theorem C8_query_subsequence_of_preorder (sel : CompiledSelector) (ctx : Element) :
    List.Sublist (query_selector_all sel ctx) (descEl ctx)
    ∧ query_selector sel ctx = (query_selector_all sel ctx).head? := by
  constructor
  · match sel with
    | none =>
      simp [query_selector_all]
    | some (c, rest) =>
      rw [query_selector_all, ← dwpEl_fst [] ctx]
      exact List.Sublist.map Prod.fst (List.filter_sublist _)
  · rfl

/-! ## Forms: option collections (embedded from forms.py) -/

/-- The error raised when a form does something the helper cannot handle. -/
inductive FormError : Type where
  | UnsupportedFormError (msg : String)

/-- Option.value from forms.py: the value attribute, or (when absent or
empty, as with the Python or-operator) the option text. -/
def optValue (el : Element) : String :=
  match getAttr el "value" with
  | some v => if v = "" then el.text else v
  | none => el.text

/-- Option.selected from forms.py: whether the selected attribute is present. -/
def optSelected (el : Element) : Bool :=
  (getAttr el "selected").isSome

/-- The Option.selected setter from forms.py: set the selected attribute to
selected, or delete it. -/
def optSetSelected (el : Element) (b : Bool) : Element :=
  if b then setAttr el "selected" "selected" else delAttr el "selected"

/-- OptionCollection.set_selected from forms.py: collect the available
values, raise UnsupportedFormError when a requested value is not among them
(before any option is touched), else select exactly the options whose value
was requested and unselect every other one. -/
def set_selected (opts : List Element) (values : List String) :
    Except FormError (List Element) :=
  if (values.filter (fun v => !((opts.map optValue).contains v))).isEmpty then
    Except.ok (opts.map (fun o => optSetSelected o (values.contains (optValue o))))
  else
    Except.error (FormError.UnsupportedFormError
      "the following options are not valid for this select element")

theorem find_map_set_other (k v k2 : String) (h : k2 ≠ k)
    (a : List (String × String)) :
    (a.map (fun p => if p.1 = k then (k, v) else p)).find? (fun p => p.1 = k2)
      = a.find? (fun p => p.1 = k2) := by
  induction a with
  | nil => rfl
  | cons q rest ih =>
    simp only [List.map_cons]
    by_cases hq : q.1 = k
    · rw [if_pos hq,
        List.find?_cons_of_neg _ (by simpa using Ne.symm h),
        List.find?_cons_of_neg _ (by simpa [hq] using Ne.symm h), ih]
    · rw [if_neg hq]
      by_cases hq2 : q.1 = k2
      · rw [List.find?_cons_of_pos _ (by simpa using hq2),
          List.find?_cons_of_pos _ (by simpa using hq2)]
      · rw [List.find?_cons_of_neg _ (by simpa using hq2),
          List.find?_cons_of_neg _ (by simpa using hq2), ih]

theorem find_append_single_other (k v k2 : String) (h : k2 ≠ k)
    (a : List (String × String)) :
    (a ++ [(k, v)]).find? (fun p => p.1 = k2) = a.find? (fun p => p.1 = k2) := by
  induction a with
  | nil =>
    simp only [List.nil_append]
    rw [List.find?_cons_of_neg _ (by simpa using Ne.symm h)]
  | cons q rest ih =>
    simp only [List.cons_append]
    by_cases hq2 : q.1 = k2
    · rw [List.find?_cons_of_pos _ (by simpa using hq2),
        List.find?_cons_of_pos _ (by simpa using hq2)]
    · rw [List.find?_cons_of_neg _ (by simpa using hq2),
        List.find?_cons_of_neg _ (by simpa using hq2), ih]

theorem find_set_other (a : List (String × String)) (k v k2 : String)
    (h : k2 ≠ k) :
    (setAttrList a k v).find? (fun p => p.1 = k2) = a.find? (fun p => p.1 = k2) := by
  unfold setAttrList
  by_cases hany : a.any (fun p => p.1 = k)
  · rw [if_pos hany]
    exact find_map_set_other k v k2 h a
  · rw [if_neg hany]
    exact find_append_single_other k v k2 h a

theorem find_map_set_same (k v : String) (a : List (String × String))
    (hany : a.any (fun p => p.1 = k) = true) :
    (a.map (fun p => if p.1 = k then (k, v) else p)).find? (fun p => p.1 = k)
      = some (k, v) := by
  induction a with
  | nil => simp at hany
  | cons q rest ih =>
    simp only [List.map_cons]
    by_cases hq : q.1 = k
    · rw [if_pos hq, List.find?_cons_of_pos _ (by simp)]
    · rw [if_neg hq, List.find?_cons_of_neg _ (by simpa using hq)]
      simp only [List.any_cons, Bool.or_eq_true] at hany
      rcases hany with hh | hh
      · exact absurd (by simpa using hh) hq
      · exact ih hh

theorem find_append_single_same (k v : String) (a : List (String × String))
    (hany : a.any (fun p => p.1 = k) = false) :
    (a ++ [(k, v)]).find? (fun p => p.1 = k) = some (k, v) := by
  induction a with
  | nil =>
    simp only [List.nil_append]
    rw [List.find?_cons_of_pos _ (by simp)]
  | cons q rest ih =>
    simp only [List.any_cons, Bool.or_eq_false_iff] at hany
    simp only [List.cons_append]
    rw [List.find?_cons_of_neg _ (by simpa using hany.1)]
    exact ih hany.2

theorem find_set_same (a : List (String × String)) (k v : String) :
    (setAttrList a k v).find? (fun p => p.1 = k) = some (k, v) := by
  unfold setAttrList
  cases hany : a.any (fun p => p.1 = k) with
  | true =>
    rw [if_pos rfl]
    exact find_map_set_same k v a hany
  | false =>
    rw [if_neg (by simp)]
    exact find_append_single_same k v a hany

theorem find_filter_del_same (k : String) (a : List (String × String)) :
    (a.filter (fun p => p.1 ≠ k)).find? (fun p => p.1 = k) = none := by
  rw [List.find?_eq_none]
  intro x hx
  have := List.of_mem_filter hx
  simpa using this

theorem find_filter_del_other (k k2 : String) (h : k2 ≠ k)
    (a : List (String × String)) :
    (a.filter (fun p => p.1 ≠ k)).find? (fun p => p.1 = k2)
      = a.find? (fun p => p.1 = k2) := by
  induction a with
  | nil => rfl
  | cons q rest ih =>
    by_cases hq : q.1 = k
    · have hq2 : ¬(q.1 = k2) := by rw [hq]; exact Ne.symm h
      rw [List.filter_cons_of_neg (by simpa using hq),
        List.find?_cons_of_neg _ (by simpa using hq2), ih]
    · rw [List.filter_cons_of_pos (by simpa using hq)]
      by_cases hq2 : q.1 = k2
      · rw [List.find?_cons_of_pos _ (by simpa using hq2),
          List.find?_cons_of_pos _ (by simpa using hq2)]
      · rw [List.find?_cons_of_neg _ (by simpa using hq2),
          List.find?_cons_of_neg _ (by simpa using hq2), ih]

theorem getAttr_set_same (el : Element) (k v : String) :
    getAttr (setAttr el k v) k = some v := by
  cases el with
  | mk t a tx ch tl =>
    simp only [getAttr, setAttr, Element.attrs, find_set_same]
    rfl

theorem getAttr_set_other (el : Element) (k v k2 : String) (h : k2 ≠ k) :
    getAttr (setAttr el k v) k2 = getAttr el k2 := by
  cases el with
  | mk t a tx ch tl =>
    simp only [getAttr, setAttr, Element.attrs, find_set_other a k v k2 h]

theorem getAttr_del_same (el : Element) (k : String) :
    getAttr (delAttr el k) k = none := by
  cases el with
  | mk t a tx ch tl =>
    simp only [getAttr, delAttr, Element.attrs, find_filter_del_same]
    rfl

theorem getAttr_del_other (el : Element) (k k2 : String) (h : k2 ≠ k) :
    getAttr (delAttr el k) k2 = getAttr el k2 := by
  cases el with
  | mk t a tx ch tl =>
    simp only [getAttr, delAttr, Element.attrs, find_filter_del_other k k2 h a]

theorem text_setAttr (el : Element) (k v : String) :
    (setAttr el k v).text = el.text := by
  cases el with
  | mk t a tx ch tl => rfl

theorem text_delAttr (el : Element) (k : String) :
    (delAttr el k).text = el.text := by
  cases el with
  | mk t a tx ch tl => rfl

theorem optSelected_optSetSelected (el : Element) (b : Bool) :
    optSelected (optSetSelected el b) = b := by
  cases b with
  | true =>
    simp [optSelected, optSetSelected, getAttr_set_same]
  | false =>
    simp [optSelected, optSetSelected, getAttr_del_same]

theorem optValue_indep (el el2 : Element)
    (hval : getAttr el2 "value" = getAttr el "value")
    (htext : el2.text = el.text) : optValue el2 = optValue el := by
  unfold optValue
  rw [hval, htext]

theorem optValue_optSetSelected (el : Element) (b : Bool) :
    optValue (optSetSelected el b) = optValue el := by
  have hv : "value" ≠ "selected" := by decide
  cases b with
  | true =>
    show optValue (setAttr el "selected" "selected") = optValue el
    exact optValue_indep el _
      (getAttr_set_other el "selected" "selected" "value" hv)
      (text_setAttr el "selected" "selected")
  | false =>
    show optValue (delAttr el "selected") = optValue el
    exact optValue_indep el _
      (getAttr_del_other el "selected" "value" hv)
      (text_delAttr el "selected")

theorem filter_not_isEmpty_eq_all (avail values : List String) :
    (values.filter (fun v => !(avail.contains v))).isEmpty
      = values.all (fun v => avail.contains v) := by
  induction values with
  | nil => rfl
  | cons v vs ih =>
    by_cases hv : v ∈ avail
    · simp only [List.filter_cons, List.all_cons]
      simp [hv]
      simpa using ih
    · simp [List.filter_cons, hv]

/-- C10: set_selected validates the requested values against the available
option values before touching any option: when some requested value is the
value of no option it returns UnsupportedFormError and no option is modified
(the error result carries the untouched collection semantics); when every
requested value is available it succeeds, the result is exactly the original
options with only their selected attribute rewritten (values are unchanged),
and an option is selected afterwards if and only if its value is among the
requested values. -/
theorem C10_set_selected_validate_then_mutate
    (opts : List Element) (values : List String) :
    (values.all (fun v => (opts.map optValue).contains v) = false →
      ∃ msg, set_selected opts values
        = Except.error (FormError.UnsupportedFormError msg))
    ∧ (values.all (fun v => (opts.map optValue).contains v) = true →
      ∃ res, set_selected opts values = Except.ok res
        ∧ res = opts.map (fun o => optSetSelected o (values.contains (optValue o)))
        ∧ res.map optValue = opts.map optValue
        ∧ ∀ o, o ∈ res → (optSelected o = true ↔ optValue o ∈ values)) := by
  constructor
  · intro h
    have hemp : (values.filter (fun v => !((opts.map optValue).contains v))).isEmpty = false := by
      rw [filter_not_isEmpty_eq_all, h]
    refine ⟨"the following options are not valid for this select element", ?_⟩
    simp only [set_selected]
    rw [if_neg (fun hc => by rw [hc] at hemp; exact Bool.noConfusion hemp)]
  · intro h
    have hemp : (values.filter (fun v => !((opts.map optValue).contains v))).isEmpty = true := by
      rw [filter_not_isEmpty_eq_all, h]
    refine ⟨opts.map (fun o => optSetSelected o (values.contains (optValue o))), ?_, rfl, ?_, ?_⟩
    · simp only [set_selected]
      rw [if_pos hemp]
    · rw [List.map_map]
      exact List.map_congr_left
        (fun o _ => optValue_optSetSelected o (values.contains (optValue o)))
    · intro o ho
      rcases List.mem_map.mp ho with ⟨o0, _, rfl⟩
      rw [optSelected_optSetSelected, optValue_optSetSelected]
      exact List.elem_iff

/-- C10 witness: both clauses applied to a concrete two-option collection —
requesting an unavailable value errors, requesting the two available values
succeeds with both options selected. -/
theorem C10_set_selected_witness :
    (∃ msg,
      set_selected
        [Element.mk "option" [("value", "x")] "" [] "",
         Element.mk "option" [] "y" [] ""] ["zzz"]
        = Except.error (FormError.UnsupportedFormError msg))
    ∧ (∃ res,
      set_selected
        [Element.mk "option" [("value", "x")] "" [] "",
         Element.mk "option" [] "y" [] ""] ["x", "y"]
        = Except.ok res
        ∧ res = [Element.mk "option" [("value", "x")] "" [] "",
                 Element.mk "option" [] "y" [] ""].map
            (fun o => optSetSelected o ((["x", "y"] : List String).contains (optValue o)))
        ∧ res.map optValue
            = [Element.mk "option" [("value", "x")] "" [] "",
               Element.mk "option" [] "y" [] ""].map optValue
        ∧ ∀ o, o ∈ res → (optSelected o = true ↔ optValue o ∈ (["x", "y"] : List String))) :=
  ⟨(C10_set_selected_validate_then_mutate
      [Element.mk "option" [("value", "x")] "" [] "",
       Element.mk "option" [] "y" [] ""] ["zzz"]).1 (by rfl),
   (C10_set_selected_validate_then_mutate
      [Element.mk "option" [("value", "x")] "" [] "",
       Element.mk "option" [] "y" [] ""] ["x", "y"]).2 (by rfl)⟩
